import Mathlib

/-!
Shallow embedding of the aqi-nowcast worker (`src/index.ts`) and proofs about it.

The worker keeps hourly PM2.5 readings in a key-value store under keys
`pm25:<ISO hour>`, maintains a cached rebuilt series under `series:last72`,
derives a nowcast band, and evaluates a spike rule and an absolute-threshold
rule on each ingested value.

Modelling conventions:
* JavaScript numbers are modelled as rationals (`ℚ`); `Math.sqrt` is `Real.sqrt`
  on the rational radicand, so standard deviations live in `ℝ`.
* A `NaN` produced by parsing a non-numeric string with `Number(...)` is
  modelled as `Option.none`; every ordered comparison against it is false,
  exactly as in JavaScript.
* The key-value store is an association list; `list({prefix})` is a filter over
  its keys, and the orchestrator sorts the returned keys itself, as the source
  does.
* JavaScript string comparison (`<`, `<=`, `Array.prototype.sort()`) is
  lexicographic on code units; it is embedded below as `strLt`/`strLe` on the
  underlying character lists.
* Network fetches cannot be embedded; `fetchOpenAQAvgPM25` is modelled from the
  point where both strategies have produced their per-hour buckets of numeric
  values (lines 125-168 of the source), which is all downstream code observes.
-/

/-- JavaScript `<` on strings, on the underlying code units: lexicographic by
numeric character value. -/
def strLtChars : List Char → List Char → Bool
  | [], [] => false
  | [], _ :: _ => true
  | _ :: _, [] => false
  | a :: as, b :: bs =>
    if a.toNat < b.toNat then true
    else if b.toNat < a.toNat then false
    else strLtChars as bs

/-- JavaScript string `<`. -/
def strLt (a b : String) : Bool := strLtChars a.data b.data

/-- JavaScript string `<=` (the negation of the reversed strict comparison). -/
def strLe (a b : String) : Bool := !(strLt b a)

/-- The ordering relation used for `Array.prototype.sort()` on string keys. -/
abbrev rStr (a b : String) : Prop := strLe a b = true

/-- `keys.sort()` from the source: ascending lexicographic sort of strings. -/
def sortStr (l : List String) : List String := List.insertionSort rStr l

/-- Character-list version of `String.startsWith`: does the second list start
with the first? -/
def charsStart : List Char → List Char → Bool
  | [], _ => true
  | _ :: _, [] => false
  | a :: as, b :: bs => a == b && charsStart as bs

/-- `k.startsWith(pre)`, used to model the store's `list({ prefix })`. -/
def strStarts (pre k : String) : Bool := charsStart pre.data k.data

/-- JavaScript `String.prototype.replace` with a string pattern removes the
first occurrence of the pattern (here: replaced by the empty string). -/
def replaceFirst (pat : List Char) : List Char → List Char
  | [] => []
  | a :: as =>
    if charsStart pat (a :: as) then (a :: as).drop pat.length
    else a :: replaceFirst pat as

/-- An entry of the rebuilt series: `{ ts, pm25 }` (line 172 of the source). -/
structure Reading where
  ts : String
  pm25 : ℚ
deriving DecidableEq

/-- A JSON value held by the key-value store: a number (a persisted per-hour
reading), an array of readings (the cached series snapshot), or anything
else. `getSeries` tests the cached value with `Array.isArray`, and
`rebuildSeries` tests per-hour values with `typeof v === 'number'`. -/
inductive Val where
  | num (q : ℚ)
  | arr (l : List Reading)
  | other
deriving DecidableEq

/-- The key-value store (`env.AQI_KV`): an association list from string keys to
JSON values, with at most one binding per key in well-formed states. -/
abbrev KV := List (String × Val)

/-- `SERIES_KEY = 'series:last72'`. -/
def SERIES_KEY : String := "series:last72"

/-- The per-hour key namespace `'pm25:'`. -/
def PM25_PRE : String := "pm25:"

/-- `env.AQI_KV.get(k)`. -/
def kvGet (s : KV) (k : String) : Option Val :=
  (s.find? (fun e => e.1 == k)).map (fun e => e.2)

/-- `env.AQI_KV.put(k, v)`: overwrite any existing binding for `k`. -/
def kvPut (s : KV) (k : String) (v : Val) : KV :=
  (k, v) :: s.filter (fun e => !(e.1 == k))

/-- `env.AQI_KV.delete(k)`. -/
def kvDelete (s : KV) (k : String) : KV :=
  s.filter (fun e => !(e.1 == k))

/-- `env.AQI_KV.list({ prefix }).keys`: the keys of the store that start with
the given string (their order is not relied upon; the source sorts). -/
def kvList (s : KV) (pre : String) : List String :=
  (s.filter (fun e => strStarts pre e.1)).map (fun e => e.1)

/-- Well-formedness of a store state: one binding per key. Every state
reachable through `kvPut`/`kvDelete` from the empty store satisfies this. -/
abbrev WF (s : KV) : Prop := (s.map (fun e => e.1)).Nodup

/-- `'pm25:' + ts` , the timestamp-derived persisted key. -/
def pm25Key (ts : String) : String := String.mk (PM25_PRE.data ++ ts.data)

/-- `k.replace('pm25:', '')` from `rebuildSeries` (line 180). -/
def stripKey (k : String) : String := String.mk (replaceFirst PM25_PRE.data k.data)

/-- `arr.reduce((a, b) => a + b, 0) / arr.length`, the averaging used
throughout the source. -/
def jsMean (l : List ℚ) : ℚ := l.sum / l.length

/-- The body of `stddev` (lines 84-88) up to the final `Math.sqrt`: the
population variance, `0` for fewer than two samples. -/
def stddevSq (arr : List ℚ) : ℚ :=
  if arr.length < 2 then 0
  else
    let m := arr.sum / arr.length
    (arr.map (fun x => (x - m) ^ 2)).sum / arr.length

/-- `stddev` (lines 84-89): `Math.sqrt` of the population variance. -/
noncomputable def stddev (arr : List ℚ) : ℝ := Real.sqrt (stddevSq arr)

/-- `Number(x.toFixed(1))`: round to one decimal place. -/
noncomputable def round1 (x : ℝ) : ℝ := (round (10 * x) : ℤ) / 10

/-- `Number(x.toFixed(2))`: round to two decimal places. -/
def round2 (q : ℚ) : ℚ := (round (100 * q) : ℤ) / 100

/-- `arr.slice(-n)`: the last `n` elements (all of them if fewer). -/
def takeLast {α : Type*} (n : ℕ) (l : List α) : List α := l.drop (l.length - n)

/-- `latestAtOrBefore` (lines 95-98): among the keys `<=` the target, the
greatest in sort order, if any. -/
def latestAtOrBefore (keys : List String) (targetIso : String) : Option String :=
  let prior := sortStr (keys.filter (fun k => strLe k targetIso))
  prior.getLast?

/-- One fetch strategy after bucketing (lines 125-141 and 150-167 of the
source): given the per-hour buckets of numeric values, pick the bucket with the
latest key at or before the target hour and average it, rounding to two decimal
places. -/
def pickBucket (bkt : List (String × List ℚ)) (hourIso : String) : Option (String × ℚ) :=
  match latestAtOrBefore (bkt.map (fun e => e.1)) hourIso with
  | none => none
  | some ts =>
    match (bkt.find? (fun e => e.1 == ts)).map (fun e => e.2) with
    | none => none
    | some vals => if vals.isEmpty then none else some (ts, round2 (jsMean vals))

/-- `fetchOpenAQAvgPM25` (lines 103-170), from the point where each strategy
has produced its buckets: primary strategy first, then the raw-measurement
strategy, and `{ ts: hourIso }` with no value when both yield nothing. -/
def fetchOpenAQAvgPM25 (primary fb : List (String × List ℚ)) (hourIso : String) :
    String × Option ℚ :=
  match pickBucket primary hourIso with
  | some (ts, v) => (ts, some v)
  | none =>
    match pickBucket fb hourIso with
    | some (ts, v) => (ts, some v)
    | none => (hourIso, none)

/-- `rebuildSeries` (lines 172-184): list the per-hour keys, sort ascending,
keep the last 72, read each value, drop non-numeric entries, cache and return
the result. Returns the series together with the updated store. -/
def rebuildSeries (s : KV) : List Reading × KV :=
  let keys := sortStr (kvList s PM25_PRE)
  let last := takeLast 72 keys
  let out := last.filterMap (fun k =>
    match kvGet s k with
    | some (Val.num q) => some ⟨stripKey k, q⟩
    | _ => none)
  (out, kvPut s SERIES_KEY (Val.arr out))

/-- `getSeries` (lines 185-189): return the cached snapshot if it is present
and an array, else rebuild. -/
def getSeries (s : KV) : List Reading × KV :=
  match kvGet s SERIES_KEY with
  | some (Val.arr cached) => (cached, s)
  | _ => rebuildSeries s

/-- An outbound notification (the body of a `telegram(env, ...)` call). -/
inductive Alert where
  | spike (value : ℚ) (ts : String) (base : ℚ)
  | absolute (value : ℚ) (ts : String)
  | forced (value : ℚ) (ts : String)
deriving DecidableEq

/-- Is this an absolute-threshold alert? -/
def Alert.isAbsolute : Alert → Bool
  | .absolute _ _ => true
  | _ => false

/-- `hist.length ? hist.reduce(..)/hist.length : value` (line 206): the spike
baseline, which is the current value itself when no history exists. -/
def baseOf (hist : List ℚ) (value : ℚ) : ℚ :=
  if hist.isEmpty then value else jsMean hist

/-- The spike condition of line 207 as the source writes it:
`value > base + Math.max(10, stddev(hist) * 2)`. -/
def spikeCond (hist : List ℚ) (value : ℚ) : Prop :=
  ((value : ℚ) : ℝ) > ((baseOf hist value : ℚ) : ℝ) + max 10 (stddev hist * 2)

/-- Decidable form of `spikeCond` used to run the detector: for `x > 0`,
`x > Math.sqrt q * 2` iff `x ^ 2 > 4 * q`, so the square root can be eliminated
over the rationals. The equivalence with `spikeCond` is proved below
(`spikeFiresB_iff_spikeCond`). -/
def spikeFiresB (hist : List ℚ) (value : ℚ) : Bool :=
  decide (baseOf hist value + 10 < value) &&
    decide (4 * stddevSq hist < (value - baseOf hist value) ^ 2)

/-- The absolute-threshold test `value >= abs` (line 211). `none` is a `NaN`
threshold (the configured string did not parse); comparisons with `NaN` are
false. -/
def absFires (thr : Option ℚ) (value : ℚ) : Bool :=
  match thr with
  | some t => decide (t ≤ value)
  | none => false

/-- Lines 204-213 of `ingest`: compute the spike history
(`series.slice(-6, -1)`), the baseline, and both alert decisions for the
freshly ingested value. The two rules are evaluated independently. -/
def detectStep (thr : Option ℚ) (ts : String) (v : ℚ) (series : List Reading) : List Alert :=
  let hist := (takeLast 5 series.dropLast).map (fun r => r.pm25)
  (if spikeFiresB hist v then [Alert.spike v ts (baseOf hist v)] else []) ++
    (if absFires thr v then [Alert.absolute v ts] else [])

/-- Line 195 of `ingest`: persist the reading under its timestamp-derived key,
when a value was produced. -/
def putStep (ts : String) (value : Option ℚ) (s : KV) : KV :=
  match value with
  | some v => kvPut s (pm25Key ts) (Val.num v)
  | none => s

/-- The retention cap `keep = 24 * 60` (line 198). -/
def keepCap : ℕ := 24 * 60

/-- Lines 196-200 of `ingest`: list the per-hour keys, sort, and delete the
oldest keys in excess of the retention cap. -/
def pruneStep (s : KV) : KV :=
  let keys := sortStr (kvList s PM25_PRE)
  let old := keys.take (keys.length - keepCap)
  old.foldl (fun acc k => kvDelete acc k) s

/-- The value returned by one ingestion pass, together with the final store
state and the notifications sent. -/
structure IngestResult where
  ts : String
  value : Option ℚ
  state : KV
  alerts : List Alert
deriving DecidableEq

/-- `ingest` (lines 193-216): reduce, persist when a value is present, prune,
rebuild the cache, and when a value is present evaluate both alert rules
against the freshly rebuilt series. -/
def ingest (primary fb : List (String × List ℚ)) (hourIso : String) (thr : Option ℚ)
    (s : KV) : IngestResult :=
  let f := fetchOpenAQAvgPM25 primary fb hourIso
  let s1 := putStep f.1 f.2 s
  let s2 := pruneStep s1
  let s3 := (rebuildSeries s2).2
  match f.2 with
  | some v =>
    let g := getSeries s3
    ⟨f.1, some v, g.2, detectStep thr f.1 v g.1⟩
  | none => ⟨f.1, none, s3, []⟩

/-- The nowcast band of `/forecast` (lines 230-234): last 24 entries, mean and
population standard deviation, lower bound clamped at zero, all rounded to one
decimal place. -/
structure Band where
  mean : ℝ
  low : ℝ
  high : ℝ
  samples : ℕ

/-- The non-empty branch of the `/forecast` handler. -/
noncomputable def nowcastBand (series : List Reading) : Band :=
  let vals := (takeLast 24 series).map (fun r => r.pm25)
  let m : ℚ := jsMean vals
  let sd : ℝ := stddev vals
  ⟨round1 ((m : ℚ) : ℝ), round1 (max 0 (((m : ℚ) : ℝ) - sd)), round1 (((m : ℚ) : ℝ) + sd),
    vals.length⟩

/-- The `/forecast` handler (lines 223-238, without the HTTP response cache):
a 503 "no data yet" error on an empty series, else the nowcast band. -/
noncomputable def forecastOut (s : KV) : Except (ℕ × String) Band × KV :=
  let g := getSeries s
  if g.1.isEmpty then (Except.error (503, "no data yet"), g.2)
  else (Except.ok (nowcastBand g.1), g.2)

/-- The `/timeseries` payload (lines 240-250, without the HTTP response cache):
always a success, with the series length and the series itself. -/
structure TimeseriesPayload where
  hours : ℕ
  series : List Reading
deriving DecidableEq

/-- The `/timeseries` handler. -/
def timeseriesOut (s : KV) : TimeseriesPayload × KV :=
  let g := getSeries s
  (⟨g.1.length, g.1⟩, g.2)

/-- The `pm25` query parameter of `/tasks/force-alert`: absent, or present and
numeric, or present but not parseable as a number. -/
inductive PM25Param where
  | absent
  | numeric (q : ℚ)
  | nonNumeric
deriving DecidableEq

/-- The response of `/tasks/force-alert`: HTTP status, the value reported (for
a 200), and the notifications sent. -/
structure ForceAlertResult where
  status : ℕ
  value : Option ℚ
  ts : String
  state : KV
  alerts : List Alert
deriving DecidableEq

/-- `/tasks/force-alert` (lines 262-271). The first line is
`const v = Number(q.get('pm25') ?? '')`: when the parameter is absent,
`q.get` yields `null`, so `v = Number('') = 0`, which is finite; only a
present but non-numeric parameter yields `NaN` (here `none`) and falls
through to the most recent series value and, failing that, the 400 error. -/
def forceAlert (param : PM25Param) (ts : String) (s : KV) : ForceAlertResult :=
  let v : Option ℚ :=
    match param with
    | .absent => some 0
    | .numeric q => some q
    | .nonNumeric => none
  match v with
  | some q => ⟨200, some q, ts, s, [Alert.forced q ts]⟩
  | none =>
    let g := getSeries s
    match g.1.getLast? with
    | some r => ⟨200, some r.pm25, ts, g.2, [Alert.forced r.pm25 ts]⟩
    | none => ⟨400, none, ts, g.2, []⟩

/-! Concrete states and inputs used to instantiate the results below. -/

/-- A concrete hour timestamp. -/
def ts0 : String := "2025-01-01T00:00:00Z"

/-- The following hour. -/
def ts1 : String := "2025-01-01T01:00:00Z"

/-- Hour two. -/
def ts2 : String := "2025-01-01T02:00:00Z"

/-- Hour three. -/
def ts3 : String := "2025-01-01T03:00:00Z"

/-- Hour four. -/
def ts4 : String := "2025-01-01T04:00:00Z"

/-- Hour five. -/
def ts5 : String := "2025-01-01T05:00:00Z"

/-- The spike-rule baseline window from the specification's example. -/
def spikeWindow : List ℚ := [50, 52, 48, 51, 49]

/-- A series whose last five predecessors are `spikeWindow` and whose current
value is 100. -/
def seriesSix : List Reading :=
  [⟨ts0, 50⟩, ⟨ts1, 52⟩, ⟨ts2, 48⟩, ⟨ts3, 51⟩, ⟨ts4, 49⟩, ⟨ts5, 100⟩]

/-- A store whose cached snapshot is stale: the cache holds a reading for
`ts0`, while the persisted per-hour entries rebuild to a reading for `ts1`. -/
def sStale : KV := [(SERIES_KEY, Val.arr [⟨ts0, 1⟩]), (pm25Key ts1, Val.num 2)]

/-- A store whose most recent (and only) series value is 42. -/
def sForty : KV := [(SERIES_KEY, Val.arr [⟨ts0, 42⟩])]

/-- A store holding a single negative per-hour reading and no cache. -/
def sNeg : KV := [(pm25Key ts0, Val.num (-5))]

/-- A small well-formed store with two per-hour readings. -/
def sTwo : KV := [(pm25Key ts0, Val.num 3), (pm25Key ts1, Val.num 4)]

/-! ### The embedded string order is a linear order. -/

theorem charEq_of_toNat_eq {a b : Char} (h : a.toNat = b.toNat) : a = b := by
  apply Char.eq_of_val_eq
  have h2 : a.val.toNat = b.val.toNat := h
  cases hv : a.val
  cases hw : b.val
  rw [hv, hw] at h2
  congr 1
  exact BitVec.eq_of_toNat_eq h2

theorem strLtChars_asymm :
    ∀ as bs, strLtChars as bs = true → strLtChars bs as = false := by
  intro as
  induction as with
  | nil => intro bs h; cases bs <;> simp_all [strLtChars]
  | cons a as ih =>
    intro bs h
    cases bs with
    | nil => simp [strLtChars] at h
    | cons b bs =>
      simp only [strLtChars] at h ⊢
      by_cases h1 : a.toNat < b.toNat
      · have h2 : ¬ b.toNat < a.toNat := by omega
        simp [h1, h2]
      · by_cases h2 : b.toNat < a.toNat
        · simp [h1, h2] at h
        · simp only [h1, h2, if_false] at h
          simp [h1, h2, ih bs h]

theorem strLtChars_eq_of_not_lt :
    ∀ as bs, strLtChars as bs = false → strLtChars bs as = false → as = bs := by
  intro as
  induction as with
  | nil => intro bs h1 _; cases bs <;> simp_all [strLtChars]
  | cons a as ih =>
    intro bs h1 h2
    cases bs with
    | nil => simp [strLtChars] at h2
    | cons b bs =>
      simp only [strLtChars] at h1 h2
      by_cases hab : a.toNat < b.toNat
      · simp [hab] at h1
      · by_cases hba : b.toNat < a.toNat
        · simp [hba] at h2
        · have he : a = b := charEq_of_toNat_eq (by omega)
          simp only [hab, hba, if_false] at h1 h2
          rw [he, ih bs h1 h2]

theorem strLtChars_trans :
    ∀ as bs cs, strLtChars as bs = true → strLtChars bs cs = true →
      strLtChars as cs = true := by
  intro as
  induction as with
  | nil =>
    intro bs cs h1 h2
    cases bs with
    | nil => simp [strLtChars] at h1
    | cons b bs =>
      cases cs with
      | nil => simp [strLtChars] at h2
      | cons c cs => simp [strLtChars]
  | cons a as ih =>
    intro bs cs h1 h2
    cases bs with
    | nil => simp [strLtChars] at h1
    | cons b bs =>
      cases cs with
      | nil => simp [strLtChars] at h2
      | cons c cs =>
        simp only [strLtChars] at h1 h2 ⊢
        by_cases hab : a.toNat < b.toNat
        · by_cases hbc : b.toNat < c.toNat
          · simp [show a.toNat < c.toNat by omega]
          · by_cases hcb : c.toNat < b.toNat
            · simp [hbc, hcb] at h2
            · simp [show a.toNat < c.toNat by omega]
        · by_cases hba : b.toNat < a.toNat
          · simp [hab, hba] at h1
          · by_cases hbc : b.toNat < c.toNat
            · simp [show a.toNat < c.toNat by omega]
            · by_cases hcb : c.toNat < b.toNat
              · simp [hbc, hcb] at h2
              · have hac : ¬ a.toNat < c.toNat := by omega
                have hca : ¬ c.toNat < a.toNat := by omega
                simp only [hab, hba, if_false] at h1
                simp only [hbc, hcb, if_false] at h2
                simp [hac, hca, ih bs cs h1 h2]

theorem stringEq_of_data {a b : String} (h : a.data = b.data) : a = b := by
  cases a; cases b; simp_all

theorem rStr_total : ∀ a b : String, rStr a b ∨ rStr b a := by
  intro a b
  by_cases h : strLt b a = true
  · right
    have := strLtChars_asymm b.data a.data h
    simp [rStr, strLe, strLt, this]
  · left
    simp [rStr, strLe, Bool.not_eq_true] at h ⊢
    exact h

theorem rStr_trans : ∀ a b c : String, rStr a b → rStr b c → rStr a c := by
  intro a b c h1 h2
  simp only [rStr, strLe, strLt, Bool.not_eq_true'] at h1 h2 ⊢
  by_cases hca : strLtChars c.data a.data = true
  · by_cases hab : strLtChars a.data b.data = true
    · have := strLtChars_trans c.data a.data b.data hca hab
      rw [this] at h2
      exact absurd h2 (by simp)
    · have he : a.data = b.data :=
        strLtChars_eq_of_not_lt a.data b.data
          (by simpa using hab) h1
      rw [← he] at h2
      rw [h2] at hca
      exact absurd hca (by simp)
  · simpa using hca

theorem rStr_antisymm : ∀ a b : String, rStr a b → rStr b a → a = b := by
  intro a b h1 h2
  simp only [rStr, strLe, strLt, Bool.not_eq_true'] at h1 h2
  exact stringEq_of_data (strLtChars_eq_of_not_lt a.data b.data h2 h1)

theorem sortStr_perm (l : List String) : (sortStr l).Perm l :=
  List.perm_insertionSort rStr l

theorem sortStr_sorted (l : List String) : List.Sorted rStr (sortStr l) := by
  haveI : IsTotal String rStr := ⟨rStr_total⟩
  haveI : IsTrans String rStr := ⟨rStr_trans⟩
  exact List.sorted_insertionSort rStr l

theorem sortStr_nodup {l : List String} (h : l.Nodup) : (sortStr l).Nodup :=
  (sortStr_perm l).symm.nodup h

theorem sortStr_eq_of_perm_sorted {l m : List String}
    (hp : l.Perm m) (hm : List.Sorted rStr m) : sortStr l = m := by
  haveI : IsAntisymm String rStr := ⟨rStr_antisymm⟩
  exact List.eq_of_perm_of_sorted ((sortStr_perm l).trans hp) (sortStr_sorted l) hm

/-! ### Key-value store lemmas. -/

theorem kvGet_put_self (s : KV) (k : String) (v : Val) :
    kvGet (kvPut s k v) k = some v := by
  simp [kvGet, kvPut, List.find?_cons_of_pos]

theorem kvGet_put_ne (s : KV) {k k' : String} (v : Val) (h : k' ≠ k) :
    kvGet (kvPut s k v) k' = kvGet s k' := by
  simp only [kvGet, kvPut]
  rw [List.find?_cons_of_neg _ (by simpa using fun he => (h he.symm).elim)]
  induction s with
  | nil => rfl
  | cons e s ih =>
    by_cases he : e.1 = k
    · rw [List.filter_cons_of_neg (by simp [he])]
      rw [List.find?_cons_of_neg _ (by simp [he]; exact fun hh => h hh.symm)]
      exact ih
    · rw [List.filter_cons_of_pos (by simp [he])]
      by_cases hk' : e.1 = k'
      · rw [List.find?_cons_of_pos _ (by simp [hk']),
          List.find?_cons_of_pos _ (by simp [hk'])]
      · rw [List.find?_cons_of_neg _ (by simp [hk']),
          List.find?_cons_of_neg _ (by simp [hk'])]
        exact ih

theorem kvGet_delete_ne (s : KV) {k k' : String} (h : k' ≠ k) :
    kvGet (kvDelete s k) k' = kvGet s k' := by
  simp only [kvGet, kvDelete]
  induction s with
  | nil => rfl
  | cons e s ih =>
    by_cases he : e.1 = k
    · rw [List.filter_cons_of_neg (by simp [he])]
      rw [List.find?_cons_of_neg _ (by simp [he]; exact fun hh => h hh.symm)]
      exact ih
    · rw [List.filter_cons_of_pos (by simp [he])]
      by_cases hk' : e.1 = k'
      · rw [List.find?_cons_of_pos _ (by simp [hk']),
          List.find?_cons_of_pos _ (by simp [hk'])]
      · rw [List.find?_cons_of_neg _ (by simp [hk']),
          List.find?_cons_of_neg _ (by simp [hk'])]
        exact ih

theorem kvList_put_of_not_starts (s : KV) {k : String} (v : Val) {pre : String}
    (h : strStarts pre k = false) : kvList (kvPut s k v) pre = kvList s pre := by
  simp only [kvList, kvPut]
  rw [List.filter_cons_of_neg (by simp [h])]
  congr 1
  rw [List.filter_filter]
  apply List.filter_congr
  intro e _
  by_cases hs : strStarts pre e.1 = true
  · have : e.1 ≠ k := fun he => by rw [he] at hs; simp [h] at hs
    simp [hs, this]
  · simp only [Bool.not_eq_true] at hs
    simp [hs]

theorem kvList_delete (s : KV) (k : String) (pre : String) :
    kvList (kvDelete s k) pre = (kvList s pre).filter (fun x => decide (x ≠ k)) := by
  simp only [kvList, kvDelete]
  induction s with
  | nil => rfl
  | cons e s ih =>
    by_cases he : e.1 = k
    · rw [List.filter_cons_of_neg (by simp [he])]
      by_cases hs : strStarts pre e.1 = true
      · rw [List.filter_cons_of_pos (by simpa using hs)]
        rw [List.map_cons]
        rw [List.filter_cons_of_neg (by simp [he])]
        exact ih
      · rw [List.filter_cons_of_neg (by simpa using hs)]
        exact ih
    · rw [List.filter_cons_of_pos (by simp [he])]
      by_cases hs : strStarts pre e.1 = true
      · rw [List.filter_cons_of_pos (by simpa using hs),
          List.filter_cons_of_pos (by simpa using hs)]
        rw [List.map_cons, List.map_cons]
        rw [List.filter_cons_of_pos (by simp [he])]
        rw [ih]
      · rw [List.filter_cons_of_neg (by simpa using hs),
          List.filter_cons_of_neg (by simpa using hs)]
        exact ih

theorem kvList_foldl_delete (ks : List String) (s : KV) (pre : String) :
    kvList (ks.foldl (fun acc k => kvDelete acc k) s) pre =
      (kvList s pre).filter (fun x => decide (x ∉ ks)) := by
  induction ks generalizing s with
  | nil => simp [List.filter_eq_self]
  | cons k ks ih =>
    rw [List.foldl_cons, ih, kvList_delete, List.filter_filter]
    apply List.filter_congr
    intro x _
    by_cases hk : x = k
    · simp [hk]
    · by_cases hks : x ∈ ks <;> simp [hk, hks]

theorem kvGet_foldl_delete (ks : List String) (s : KV) {k' : String}
    (h : k' ∉ ks) :
    kvGet (ks.foldl (fun acc k => kvDelete acc k) s) k' = kvGet s k' := by
  induction ks generalizing s with
  | nil => rfl
  | cons k ks ih =>
    rw [List.foldl_cons, ih (kvDelete s k) (fun hm => h (List.mem_cons_of_mem _ hm))]
    exact kvGet_delete_ne s (fun he => h (by simp [he]))

theorem kvList_nodup {s : KV} (h : WF s) (pre : String) : (kvList s pre).Nodup := by
  apply List.Nodup.sublist _ h
  simpa [kvList] using List.Sublist.map (fun e => e.1) (List.filter_sublist s)

theorem WF_put {s : KV} (h : WF s) (k : String) (v : Val) : WF (kvPut s k v) := by
  simp only [WF, kvPut, List.map_cons, List.nodup_cons]
  constructor
  · intro hm
    rcases List.mem_map.mp hm with ⟨e, he, hk⟩
    have := (List.mem_filter.mp he).2
    rw [hk] at this
    simp at this
  · apply List.Nodup.sublist _ h
    exact List.Sublist.map (fun e => e.1) (List.filter_sublist s)

theorem mem_kvList_starts {s : KV} {pre k : String} (h : k ∈ kvList s pre) :
    strStarts pre k = true := by
  simp only [kvList, List.mem_map] at h
  rcases h with ⟨e, he, hk⟩
  rw [← hk]
  exact (List.mem_filter.mp he).2

/-! ### `takeLast` lemmas. -/

theorem takeLast_length_le {α : Type*} (n : ℕ) (l : List α) :
    (takeLast n l).length ≤ n := by
  simp only [takeLast, List.length_drop]
  omega

theorem takeLast_sublist {α : Type*} (n : ℕ) (l : List α) :
    (takeLast n l).Sublist l := List.drop_sublist _ _

theorem takeLast_takeLast {α : Type*} {m n : ℕ} (h : m ≤ n) (l : List α) :
    takeLast m (takeLast n l) = takeLast m l := by
  simp only [takeLast, List.length_drop, List.drop_drop]
  congr 1
  omega

theorem takeLast_of_length_le {α : Type*} {n : ℕ} {l : List α}
    (h : l.length ≤ n) : takeLast n l = l := by
  simp only [takeLast]
  rw [Nat.sub_eq_zero_of_le h, List.drop_zero]

theorem takeLast_sorted {l : List String} (h : List.Sorted rStr l) (n : ℕ) :
    List.Sorted rStr (takeLast n l) :=
  List.Pairwise.sublist (takeLast_sublist n l) h

/-! ### Pruning and rebuilding. -/

theorem filter_not_mem_append {T D : List String} (h : (T ++ D).Nodup) :
    (T ++ D).filter (fun x => decide (x ∉ T)) = D := by
  have hdisj := (List.nodup_append.mp h).2.2
  rw [List.filter_append]
  have h1 : T.filter (fun x => decide (x ∉ T)) = [] := by
    apply List.filter_eq_nil_iff.mpr
    intro a ha
    simp [ha]
  have h2 : D.filter (fun x => decide (x ∉ T)) = D := by
    apply List.filter_eq_self.mpr
    intro a ha
    simp only [decide_eq_true_eq]
    intro hT
    exact hdisj hT ha
  rw [h1, h2, List.nil_append]

theorem filter_not_mem_take {S : List String} (h : S.Nodup) (k : ℕ) :
    S.filter (fun x => decide (x ∉ S.take k)) = S.drop k := by
  have h2 : (S.take k ++ S.drop k).Nodup := by
    rw [List.take_append_drop]
    exact h
  have h3 := filter_not_mem_append h2
  rw [List.take_append_drop] at h3
  exact h3

theorem kvList_pruneStep {s : KV} (h : WF s) :
    sortStr (kvList (pruneStep s) PM25_PRE) =
      takeLast keepCap (sortStr (kvList s PM25_PRE)) := by
  simp only [pruneStep]
  rw [kvList_foldl_delete]
  have hnd : (sortStr (kvList s PM25_PRE)).Nodup := sortStr_nodup (kvList_nodup h _)
  apply sortStr_eq_of_perm_sorted
  · have hp : ((sortStr (kvList s PM25_PRE)).filter
        (fun x => decide (x ∉ (sortStr (kvList s PM25_PRE)).take
          ((sortStr (kvList s PM25_PRE)).length - keepCap)))).Perm
        ((kvList s PM25_PRE).filter
        (fun x => decide (x ∉ (sortStr (kvList s PM25_PRE)).take
          ((sortStr (kvList s PM25_PRE)).length - keepCap)))) :=
      (sortStr_perm _).filter _
    have he := filter_not_mem_take hnd
      ((sortStr (kvList s PM25_PRE)).length - keepCap)
    rw [he] at hp
    exact hp.symm
  · exact takeLast_sorted (sortStr_sorted _) _

theorem kvGet_pruneStep {s : KV} (h : WF s) {k' : String}
    (hk : k' ∈ takeLast keepCap (sortStr (kvList s PM25_PRE))) :
    kvGet (pruneStep s) k' = kvGet s k' := by
  simp only [pruneStep]
  apply kvGet_foldl_delete
  intro hmem
  have hnd : (sortStr (kvList s PM25_PRE)).Nodup := sortStr_nodup (kvList_nodup h _)
  have h2 : ((sortStr (kvList s PM25_PRE)).take
      ((sortStr (kvList s PM25_PRE)).length - keepCap) ++
      (sortStr (kvList s PM25_PRE)).drop
      ((sortStr (kvList s PM25_PRE)).length - keepCap)).Nodup := by
    rw [List.take_append_drop]
    exact hnd
  exact (List.nodup_append.mp h2).2.2 hmem hk

theorem rebuildSeries_fst (s : KV) :
    (rebuildSeries s).1 = (takeLast 72 (sortStr (kvList s PM25_PRE))).filterMap
      (fun k => match kvGet s k with
        | some (Val.num q) => some ⟨stripKey k, q⟩
        | _ => none) := rfl

theorem rebuildSeries_snd (s : KV) :
    (rebuildSeries s).2 = kvPut s SERIES_KEY (Val.arr (rebuildSeries s).1) := rfl

theorem starts_SERIES_KEY : strStarts PM25_PRE SERIES_KEY = false := by decide

theorem mem_pm25_ne_series {s : KV} {k : String} (h : k ∈ kvList s PM25_PRE) :
    k ≠ SERIES_KEY := by
  intro he
  have h2 := mem_kvList_starts h
  rw [he, starts_SERIES_KEY] at h2
  exact absurd h2 (by simp)

theorem rebuildSeries_put_series (s : KV) (v : Val) :
    (rebuildSeries (kvPut s SERIES_KEY v)).1 = (rebuildSeries s).1 := by
  rw [rebuildSeries_fst, rebuildSeries_fst]
  rw [kvList_put_of_not_starts s v starts_SERIES_KEY]
  apply List.filterMap_congr
  intro k hk
  have hkm : k ∈ kvList s PM25_PRE :=
    (sortStr_perm _).subset ((takeLast_sublist _ _).subset hk)
  rw [kvGet_put_ne s v (mem_pm25_ne_series hkm)]

theorem rebuildSeries_stable (s : KV) :
    (rebuildSeries ((rebuildSeries s).2)).1 = (rebuildSeries s).1 := by
  rw [rebuildSeries_snd s]
  exact rebuildSeries_put_series s _

theorem keep_72_le : (72 : ℕ) ≤ keepCap := by norm_num [keepCap]

theorem rebuildSeries_pruneStep {s : KV} (h : WF s) :
    (rebuildSeries (pruneStep s)).1 = (rebuildSeries s).1 := by
  rw [rebuildSeries_fst, rebuildSeries_fst, kvList_pruneStep h,
    takeLast_takeLast keep_72_le]
  apply List.filterMap_congr
  intro k hk
  have hk2 : k ∈ takeLast keepCap (sortStr (kvList s PM25_PRE)) := by
    rw [← takeLast_takeLast keep_72_le (sortStr (kvList s PM25_PRE))] at hk
    exact (takeLast_sublist _ _).subset hk
  rw [kvGet_pruneStep h hk2]

theorem getSeries_rebuild (s : KV) :
    getSeries ((rebuildSeries s).2) = ((rebuildSeries s).1, (rebuildSeries s).2) := by
  have h : kvGet (rebuildSeries s).2 SERIES_KEY = some (Val.arr (rebuildSeries s).1) := by
    rw [rebuildSeries_snd]
    exact kvGet_put_self ..
  simp [getSeries, h]

/-! ### Statistics: variance, square roots, rounding. -/

theorem stddevSq_nonneg (arr : List ℚ) : 0 ≤ stddevSq arr := by
  unfold stddevSq
  split
  · norm_num
  · apply div_nonneg
    · apply List.sum_nonneg
      intro x hx
      rcases List.mem_map.mp hx with ⟨y, _, rfl⟩
      positivity
    · positivity

theorem spikeFiresB_iff_spikeCond (hist : List ℚ) (v : ℚ) :
    spikeFiresB hist v = true ↔ spikeCond hist v := by
  simp only [spikeFiresB, Bool.and_eq_true, decide_eq_true_eq, spikeCond, stddev]
  have hq : (0:ℝ) ≤ ((stddevSq hist : ℚ) : ℝ) := by
    exact_mod_cast stddevSq_nonneg hist
  constructor
  · rintro ⟨h1, h2⟩
    have h1' : ((baseOf hist v : ℚ) : ℝ) + 10 < ((v : ℚ) : ℝ) := by exact_mod_cast h1
    have h2' : 4 * ((stddevSq hist : ℚ) : ℝ) <
        (((v : ℚ) : ℝ) - ((baseOf hist v : ℚ) : ℝ)) ^ 2 := by exact_mod_cast h2
    have hs : Real.sqrt ((stddevSq hist : ℚ) : ℝ) * 2 <
        ((v : ℚ) : ℝ) - ((baseOf hist v : ℚ) : ℝ) := by
      nlinarith [Real.sq_sqrt hq, Real.sqrt_nonneg ((stddevSq hist : ℚ) : ℝ)]
    have hm := max_lt_iff.mpr ⟨(by linarith : (10:ℝ) <
      ((v : ℚ) : ℝ) - ((baseOf hist v : ℚ) : ℝ)), hs⟩
    rw [gt_iff_lt]
    linarith
  · intro h
    rw [gt_iff_lt] at h
    have hm : max 10 (Real.sqrt ((stddevSq hist : ℚ) : ℝ) * 2) <
        ((v : ℚ) : ℝ) - ((baseOf hist v : ℚ) : ℝ) := by linarith
    have hx := (max_lt_iff.mp hm).1
    have hs := (max_lt_iff.mp hm).2
    constructor
    · exact_mod_cast (by linarith :
        ((baseOf hist v : ℚ) : ℝ) + 10 < ((v : ℚ) : ℝ))
    · have h2 : 4 * ((stddevSq hist : ℚ) : ℝ) <
          (((v : ℚ) : ℝ) - ((baseOf hist v : ℚ) : ℝ)) ^ 2 := by
        nlinarith [Real.sq_sqrt hq, Real.sqrt_nonneg ((stddevSq hist : ℚ) : ℝ)]
      exact_mod_cast h2

theorem round_mono {x y : ℝ} (h : x ≤ y) : round x ≤ round y := by
  rw [round_eq, round_eq]
  exact Int.floor_le_floor (by linarith)

theorem round1_mono {x y : ℝ} (h : x ≤ y) : round1 x ≤ round1 y := by
  unfold round1
  have h1 := round_mono (by linarith : 10 * x ≤ 10 * y)
  have h2 : ((round (10 * x) : ℤ) : ℝ) ≤ ((round (10 * y) : ℤ) : ℝ) := by
    exact_mod_cast h1
  linarith

theorem round1_nonneg {x : ℝ} (h : 0 ≤ x) : 0 ≤ round1 x := by
  unfold round1
  have h1 : round (0 : ℝ) ≤ round (10 * x) := round_mono (by linarith)
  rw [round_zero] at h1
  have h2 : (0:ℝ) ≤ ((round (10 * x) : ℤ) : ℝ) := by exact_mod_cast h1
  linarith

theorem jsMean_nonneg {l : List ℚ} (h : ∀ x ∈ l, 0 ≤ x) : 0 ≤ jsMean l := by
  unfold jsMean
  exact div_nonneg (List.sum_nonneg h) (by positivity)

/-! ### Ingestion-pass structure. -/

theorem WF_putStep {s : KV} (h : WF s) (ts : String) (value : Option ℚ) :
    WF (putStep ts value s) := by
  cases value with
  | none => exact h
  | some v => exact WF_put h _ _

theorem kvList_rebuildSeries (s : KV) :
    kvList ((rebuildSeries s).2) PM25_PRE = kvList s PM25_PRE := by
  rw [rebuildSeries_snd]
  exact kvList_put_of_not_starts s _ starts_SERIES_KEY

theorem ingest_state (primary fb : List (String × List ℚ)) (hourIso : String)
    (thr : Option ℚ) (s : KV) :
    (ingest primary fb hourIso thr s).state =
      (rebuildSeries (pruneStep (putStep (fetchOpenAQAvgPM25 primary fb hourIso).1
        (fetchOpenAQAvgPM25 primary fb hourIso).2 s))).2 := by
  simp only [ingest]
  cases hf : (fetchOpenAQAvgPM25 primary fb hourIso).2 with
  | none => simp [hf]
  | some v => simp [hf, getSeries_rebuild]

theorem detectStep_nan_no_absolute (ts : String) (v : ℚ) (series : List Reading) :
    ((detectStep none ts v series).all fun a => !a.isAbsolute) = true := by
  simp only [detectStep, absFires]
  cases h : spikeFiresB ((takeLast 5 series.dropLast).map fun r => r.pm25) v <;>
    simp [h, Alert.isAbsolute]

/-! ### Claim results. -/

/-- C9: `rebuildSeries` lists the persisted per-hour keys, sorts them
ascending, takes the most recent 72, drops non-numeric entries, caches the
resulting ordered sequence and returns it; applied twice in succession with no
intervening writes to the per-hour entries, the second call returns the same
series as the first. -/
theorem rebuildSeries_idempotent (s : KV) :
    (rebuildSeries ((rebuildSeries s).2)).1 = (rebuildSeries s).1 :=
  rebuildSeries_stable s

/-- C2 counterexample: at the concrete state `sStale`, `getSeries` returns a
present cached snapshot that is not a suffix of what a full rebuild produces at
that instant — the stale cache is returned, not discarded and rebuilt. -/
theorem getSeries_returns_stale_cache :
    getSeries sStale = ([⟨ts0, 1⟩], sStale) ∧
      (rebuildSeries sStale).1 = [⟨ts1, 2⟩] ∧
      ¬ ([(⟨ts0, 1⟩ : Reading)] <:+ [⟨ts1, 2⟩]) := by
  refine ⟨rfl, rfl, by decide⟩

/-- C2 (amended): `getSeries` returns a present, array-shaped cached snapshot
unchanged, performing no staleness or suffix check against a rebuild — it
rebuilds only when the cache is absent or not an array; the suffix invariant is
established only by `rebuildSeries` itself, which writes exactly its output to
the cache key, trivially a suffix of the rebuilt sequence. -/
theorem getSeries_no_staleness_check (s : KV) (l : List Reading) :
    (kvGet s SERIES_KEY = some (Val.arr l) → getSeries s = (l, s)) ∧
      kvGet (rebuildSeries s).2 SERIES_KEY = some (Val.arr (rebuildSeries s).1) ∧
      (rebuildSeries s).1 <:+ (rebuildSeries s).1 := by
  refine ⟨?_, ?_, List.suffix_refl _⟩
  · intro h
    simp [getSeries, h]
  · rw [rebuildSeries_snd]
    exact kvGet_put_self ..

/-- Witness for the amended C2 at the concrete state `sStale`. -/
theorem getSeries_no_staleness_check_witness :
    getSeries sStale = ([⟨ts0, 1⟩], sStale) :=
  (getSeries_no_staleness_check sStale [⟨ts0, 1⟩]).1 rfl

/-- C8: against the same empty store, the timeseries query succeeds with
`hours = 0` and an empty series, while the forecast query responds with the
503 "no data yet" service-unavailable error. -/
theorem empty_store_timeseries_vs_forecast :
    timeseriesOut [] = (⟨0, []⟩, [(SERIES_KEY, Val.arr [])]) ∧
      (forecastOut []).1 = Except.error (503, "no data yet") :=
  ⟨rfl, rfl⟩

/-- C1 at the failing input: with the `pm25` override absent,
`Number(q.get('pm25') ?? '')` evaluates to `Number('') = 0`, which is finite,
so the handler always sends a forced alert with value 0 and responds 200 — on
the empty store (where the claim requires a 400 client error) and on `sForty`
(whose most recent series value 42 the claim requires to be used). -/
theorem forceAlert_absent_sends_zero :
    forceAlert PM25Param.absent ts5 [] =
        ⟨200, some 0, ts5, [], [Alert.forced 0 ts5]⟩ ∧
      forceAlert PM25Param.absent ts5 sForty =
        ⟨200, some 0, ts5, sForty, [Alert.forced 0 ts5]⟩ ∧
      (getSeries sForty).1.getLast? = some ⟨ts0, 42⟩ :=
  ⟨rfl, rfl, rfl⟩

/-- C10: with a threshold that did not parse (`NaN`, modelled `none`), the
absolute comparison is false for every value, and no ingestion pass emits an
absolute-threshold alert. -/
theorem nan_threshold_never_fires :
    (∀ v : ℚ, absFires none v = false) ∧
      ∀ (primary fb : List (String × List ℚ)) (hourIso : String) (s : KV),
        (((ingest primary fb hourIso none s).alerts.all fun a => !a.isAbsolute) = true) := by
  refine ⟨fun v => rfl, ?_⟩
  intro primary fb hourIso s
  simp only [ingest]
  cases hf : (fetchOpenAQAvgPM25 primary fb hourIso).2 with
  | none => simp [hf]
  | some v =>
    simp only [hf]
    exact detectStep_nan_no_absolute _ _ _

/-- C3: the spike rule fires exactly when the current value exceeds the
baseline — the mean of the up-to-five readings immediately preceding the
current one, or the current value itself when none exist — by more than
`max(10, 2 × population stddev)` of those readings; with baseline window
`[50, 52, 48, 51, 49]` it fires for 62 and not for 58, and with no preceding
readings it never fires. -/
theorem spike_rule_characterization :
    (∀ hist v, spikeFiresB hist v = true ↔ spikeCond hist v) ∧
      (∀ v : ℚ, spikeFiresB [] v = false) ∧
      spikeFiresB spikeWindow 62 = true ∧
      spikeFiresB spikeWindow 58 = false := by
  refine ⟨spikeFiresB_iff_spikeCond, ?_, ?_, ?_⟩
  · intro v
    have h : ¬ (v + 10 < v) := by linarith
    simp [spikeFiresB, baseOf, h]
  · have hb : baseOf spikeWindow 62 = 50 := by
      norm_num [baseOf, jsMean, spikeWindow]
    have hs : stddevSq spikeWindow = 2 := by
      norm_num [stddevSq, spikeWindow, jsMean]
    simp [spikeFiresB, hb, hs]
    norm_num
  · have hb : baseOf spikeWindow 58 = 50 := by
      norm_num [baseOf, jsMean, spikeWindow]
    simp [spikeFiresB, hb]
    norm_num

/-- C4: the absolute-threshold rule fires exactly when
`threshold ≤ value` — an inclusive bound, so with threshold 90 the value 90
fires and 89.9 does not — and it is evaluated independently of the spike rule:
a single detector evaluation can emit both alerts in the same cycle. -/
theorem absolute_rule_inclusive_independent :
    (∀ t v : ℚ, (absFires (some t) v = true ↔ t ≤ v)) ∧
      absFires (some 90) 90 = true ∧
      absFires (some 90) (899 / 10) = false ∧
      detectStep (some 90) ts5 100 seriesSix =
        [Alert.spike 100 ts5 50, Alert.absolute 100 ts5] := by
  refine ⟨?_, ?_, ?_, ?_⟩
  · intro t v
    simp [absFires]
  · simp [absFires]
  · norm_num [absFires]
  · have hh : (takeLast 5 seriesSix.dropLast).map (fun r => r.pm25) = spikeWindow := rfl
    have hb : baseOf spikeWindow 100 = 50 := by
      norm_num [baseOf, jsMean, spikeWindow]
    have hs : stddevSq spikeWindow = 2 := by
      norm_num [stddevSq, spikeWindow, jsMean]
    have hsp : spikeFiresB spikeWindow 100 = true := by
      simp [spikeFiresB, hb, hs]
      norm_num
    have hab : absFires (some 90) 100 = true := by
      norm_num [absFires]
    simp only [detectStep, hh, hsp, hab, hb, if_true]
    rfl

/-- C5: after the append step of any ingestion pass on a well-formed store,
at most `keepCap = 1440` per-hour keys remain persisted, and the surviving
keys are exactly the greatest `keepCap` keys of the post-put sorted key list
(pruning removes the excess oldest-first, so the survivors are a suffix of the
sort order). -/
theorem ingest_retention_cap (primary fb : List (String × List ℚ)) (hourIso : String)
    (thr : Option ℚ) (s : KV) (h : WF s) :
    (kvList (ingest primary fb hourIso thr s).state PM25_PRE).length ≤ keepCap ∧
      sortStr (kvList (ingest primary fb hourIso thr s).state PM25_PRE) =
        takeLast keepCap (sortStr (kvList (putStep
          (fetchOpenAQAvgPM25 primary fb hourIso).1
          (fetchOpenAQAvgPM25 primary fb hourIso).2 s) PM25_PRE)) := by
  have hst := ingest_state primary fb hourIso thr s
  have hwf1 : WF (putStep (fetchOpenAQAvgPM25 primary fb hourIso).1
      (fetchOpenAQAvgPM25 primary fb hourIso).2 s) := WF_putStep h _ _
  have hkl : kvList (ingest primary fb hourIso thr s).state PM25_PRE =
      kvList (pruneStep (putStep (fetchOpenAQAvgPM25 primary fb hourIso).1
        (fetchOpenAQAvgPM25 primary fb hourIso).2 s)) PM25_PRE := by
    rw [hst, kvList_rebuildSeries]
  constructor
  · rw [hkl]
    have hlen := (sortStr_perm (kvList (pruneStep (putStep
      (fetchOpenAQAvgPM25 primary fb hourIso).1
      (fetchOpenAQAvgPM25 primary fb hourIso).2 s)) PM25_PRE)).length_eq
    rw [← hlen, kvList_pruneStep hwf1]
    exact takeLast_length_le _ _
  · rw [hkl, kvList_pruneStep hwf1]

/-- Witness for C5 at a concrete well-formed two-reading store. -/
theorem ingest_retention_cap_witness :
    (kvList (ingest [] [] ts5 none sTwo).state PM25_PRE).length ≤ keepCap ∧
      sortStr (kvList (ingest [] [] ts5 none sTwo).state PM25_PRE) =
        takeLast keepCap (sortStr (kvList (putStep
          (fetchOpenAQAvgPM25 [] [] ts5).1
          (fetchOpenAQAvgPM25 [] [] ts5).2 sTwo) PM25_PRE)) :=
  ingest_retention_cap [] [] ts5 none sTwo (by decide)

/-- C7: when both reducer strategies yield no data, the ingestion pass returns
the last full hour with no value (raising nothing — `ingest` is total), sends
no alert, adds no per-hour entry to the persisted store, and leaves the
rebuilt series unchanged. -/
theorem ingest_no_data_cycle (primary fb : List (String × List ℚ)) (hourIso : String)
    (thr : Option ℚ) (s : KV) (h : WF s)
    (h1 : pickBucket primary hourIso = none) (h2 : pickBucket fb hourIso = none) :
    (ingest primary fb hourIso thr s).ts = hourIso ∧
      (ingest primary fb hourIso thr s).value = none ∧
      (ingest primary fb hourIso thr s).alerts = [] ∧
      (∀ k, k ∈ kvList (ingest primary fb hourIso thr s).state PM25_PRE →
        k ∈ kvList s PM25_PRE) ∧
      (rebuildSeries (ingest primary fb hourIso thr s).state).1 =
        (rebuildSeries s).1 := by
  have hf : fetchOpenAQAvgPM25 primary fb hourIso = (hourIso, none) := by
    simp [fetchOpenAQAvgPM25, h1, h2]
  have hi : ingest primary fb hourIso thr s =
      ⟨hourIso, none, (rebuildSeries (pruneStep s)).2, []⟩ := by
    simp [ingest, hf, putStep]
  rw [hi]
  refine ⟨rfl, rfl, rfl, ?_, ?_⟩
  · intro k hk
    rw [kvList_rebuildSeries] at hk
    simp only [pruneStep] at hk
    rw [kvList_foldl_delete] at hk
    exact (List.mem_filter.mp hk).1
  · rw [rebuildSeries_stable (pruneStep s), rebuildSeries_pruneStep h]

/-- Witness for C7 at a concrete well-formed store with both strategies
yielding no buckets. -/
theorem ingest_no_data_cycle_witness :
    (ingest [] [] ts5 none sTwo).ts = ts5 ∧
      (ingest [] [] ts5 none sTwo).value = none ∧
      (ingest [] [] ts5 none sTwo).alerts = [] ∧
      (∀ k, k ∈ kvList (ingest [] [] ts5 none sTwo).state PM25_PRE →
        k ∈ kvList sTwo PM25_PRE) ∧
      (rebuildSeries (ingest [] [] ts5 none sTwo).state).1 =
        (rebuildSeries sTwo).1 :=
  ingest_no_data_cycle [] [] ts5 none sTwo (by decide) rfl rfl

/-- C6 counterexample: at the store holding the single reading −5, the
forecast band has `low = 0` (clamped) but `high = −5`, so `high ≥ low` fails:
the claimed bounds do not hold for every non-empty series. -/
theorem nowcast_band_negative_violation :
    (forecastOut sNeg).1 = Except.ok (nowcastBand [⟨ts0, -5⟩]) ∧
      (nowcastBand [⟨ts0, -5⟩]).low = 0 ∧
      (nowcastBand [⟨ts0, -5⟩]).high = -5 ∧
      ¬ ((nowcastBand [⟨ts0, -5⟩]).low ≤ (nowcastBand [⟨ts0, -5⟩]).high) := by
  have hsd : stddev [(-5 : ℚ)] = 0 := by
    simp [stddev, stddevSq]
  have hm : jsMean [(-5 : ℚ)] = -5 := by
    norm_num [jsMean]
  have hmap : (takeLast 24 [(⟨ts0, -5⟩ : Reading)]).map (fun r => r.pm25) =
      [(-5 : ℚ)] := rfl
  have hlow : (nowcastBand [(⟨ts0, -5⟩ : Reading)]).low = 0 := by
    show round1 (max 0
      ((((jsMean ((takeLast 24 [(⟨ts0, -5⟩ : Reading)]).map (fun r => r.pm25))) : ℚ) : ℝ) -
        stddev ((takeLast 24 [(⟨ts0, -5⟩ : Reading)]).map (fun r => r.pm25)))) = 0
    rw [hmap, hm, hsd]
    have h1 : max (0:ℝ) ((((-5 : ℚ)) : ℝ) - 0) = 0 := by
      rw [max_eq_left]
      push_cast
      norm_num
    rw [h1]
    simp [round1]
  have hhigh : (nowcastBand [(⟨ts0, -5⟩ : Reading)]).high = -5 := by
    show round1
      ((((jsMean ((takeLast 24 [(⟨ts0, -5⟩ : Reading)]).map (fun r => r.pm25))) : ℚ) : ℝ) +
        stddev ((takeLast 24 [(⟨ts0, -5⟩ : Reading)]).map (fun r => r.pm25))) = -5
    rw [hmap, hm, hsd]
    have h1 : (((-5 : ℚ)) : ℝ) + 0 = -5 := by
      push_cast
      ring
    rw [h1]
    unfold round1
    have h2 : (10:ℝ) * -5 = ((-50 : ℤ) : ℝ) := by
      push_cast
      ring
    rw [h2, round_intCast]
    norm_num
  refine ⟨rfl, hlow, hhigh, ?_⟩
  rw [hlow, hhigh]
  norm_num

/-- C6 (amended): for every non-empty series whose values are all
nonnegative — as physical PM2.5 readings are — the nowcast band over the last
24 entries satisfies `low ≥ 0` and `high ≥ low`; with negative values in the
series the clamped lower bound can exceed `high`. -/
theorem nowcast_band_bounds (series : List Reading) (_hne : series ≠ [])
    (hpos : ∀ r ∈ series, 0 ≤ r.pm25) :
    0 ≤ (nowcastBand series).low ∧
      (nowcastBand series).low ≤ (nowcastBand series).high := by
  have hvpos : ∀ x ∈ (takeLast 24 series).map (fun r => r.pm25), 0 ≤ x := by
    intro x hx
    rcases List.mem_map.mp hx with ⟨r, hr, rfl⟩
    exact hpos r ((takeLast_sublist _ _).subset hr)
  have hm : 0 ≤ jsMean ((takeLast 24 series).map (fun r => r.pm25)) :=
    jsMean_nonneg hvpos
  have hmR : (0:ℝ) ≤ ((jsMean ((takeLast 24 series).map (fun r => r.pm25)) : ℚ) : ℝ) := by
    exact_mod_cast hm
  have hsd : 0 ≤ stddev ((takeLast 24 series).map (fun r => r.pm25)) :=
    Real.sqrt_nonneg _
  constructor
  · exact round1_nonneg (le_max_left _ _)
  · apply round1_mono
    apply max_le
    · linarith
    · linarith

/-- Witness for the amended C6 at a one-reading series with value 5. -/
theorem nowcast_band_bounds_witness :
    0 ≤ (nowcastBand [⟨ts0, 5⟩]).low ∧
      (nowcastBand [⟨ts0, 5⟩]).low ≤ (nowcastBand [⟨ts0, 5⟩]).high :=
  nowcast_band_bounds [⟨ts0, 5⟩] (by simp) (by decide)
